import Mathlib

/-!
Verification of the Lawmedol retrieval engine (`backend/utils/rag_system.py`)
against its natural-language specification.

The Python module is shallowly embedded below:
* text is modelled as `List Char`;
* `_split_paragraph_chunks` (paragraph split on blank lines, greedy buffer
  accumulation, sliding-window hard split) is translated function by function;
* the `RAGSystem` class (`build_index` / `load_index` / `retrieve_law_chunks`)
  is modelled by explicit state passing over `RAGState`; each statement of the
  Python `try:` bodies that can raise is controlled by a failure `Oracle`,
  and the surrounding `except` handlers are the `match ... | .error` catches;
* the sentence-transformers encoder (external library) is abstracted as a
  caller-supplied `embed : String → Vec` (absorbing the `_norm` step), with
  integer-valued vectors standing in for float vectors — no claim below
  depends on float rounding;
* the faiss `IndexFlatIP` is modelled as the list of its row vectors, and
  `Index.search` by an exhaustive inner-product top-k selection with `-1`
  padding, following the documented faiss contract.
-/

namespace Lawmedol

/-- `CHUNK_SIZE` constant of rag_system.py. -/
def CHUNK_SIZE : Nat := 500

/-- `CHUNK_OVERLAP` constant of rag_system.py. -/
def CHUNK_OVERLAP : Nat := 50

/-- Python regex class `\s`, restricted to the ASCII whitespace characters
(the corpora and witnesses below are ASCII; no claim depends on the
non-ASCII part of the class). -/
def pySpace (c : Char) : Bool :=
  c = ' ' || c = '\t' || c = '\n' || c = '\r' || c = '\x0b' || c = '\x0c'

/-- Python `text.replace("\r\n", "\n")` (leftmost non-overlapping). -/
def replaceCRLF : List Char → List Char
  | '\r' :: '\n' :: rest => '\n' :: replaceCRLF rest
  | c :: rest => c :: replaceCRLF rest
  | [] => []

/-- Python `text.replace("\r", "\n")`. -/
def replaceCR (l : List Char) : List Char :=
  l.map (fun c => if c = '\r' then '\n' else c)

/-- Index of the last newline character of `l`, if any. -/
def lastNlIdx (l : List Char) : Option Nat :=
  ((List.range l.length).filter (fun i => l.get? i = some '\n')).getLast?

/-- Greedy match of the tail `\s*\n` of the pattern `\n\s*\n`, starting right
after an initial `'\n'`: consume the longest whitespace run that still ends
with a newline, returning what follows the match. -/
def matchTail (rest : List Char) : Option (List Char) :=
  match lastNlIdx (rest.takeWhile pySpace) with
  | some j => some (rest.drop (j + 1))
  | none => none

/-- Worker for `re.split(r"\n\s*\n", text)`: scan left to right, cutting at
each leftmost match.  The fuel starts at the length of the input, which is an
upper bound for the number of characters ever consumed, so the fuel-exhausted
branch is unreachable. -/
def rsGo : Nat → List Char → List Char → List (List Char)
  | _, acc, [] => [acc.reverse]
  | 0, acc, l => [acc.reverse ++ l]
  | fuel + 1, acc, c :: rest =>
    if c = '\n' then
      match matchTail rest with
      | some rest2 => acc.reverse :: rsGo fuel [] rest2
      | none => rsGo fuel (c :: acc) rest
    else rsGo fuel (c :: acc) rest

/-- Python `re.split(r"\n\s*\n", text)`. -/
def reSplitBlank (l : List Char) : List (List Char) :=
  rsGo l.length [] l

/-- Python `str.strip()` (whitespace from both ends). -/
def pyStrip (l : List Char) : List Char :=
  ((l.dropWhile pySpace).reverse.dropWhile pySpace).reverse

/-- Lines 36-37 of rag_system.py: normalize newlines, split the text on blank
lines, strip every paragraph and keep the non-empty ones. -/
def paragraphsOf (text : List Char) : List (List Char) :=
  ((reSplitBlank (replaceCR (replaceCRLF text))).map pyStrip).filter
    (fun p => !p.isEmpty)

/-- The `while len(cur) > size: yield cur[:size]; cur = cur[size - overlap:]`
loop of `_split_paragraph_chunks`, fueled.  When `overlap < size` each
iteration strictly shortens `cur`, so fuel `cur.length` is enough and the
fuel-exhausted branch is unreachable; for `overlap ≥ size` the Python loop
does not terminate, and no claim concerns that regime. -/
def hardSplitGo (size overlap : Nat) : Nat → List Char → List (List Char) × List Char
  | 0, cur => ([], cur)
  | fuel + 1, cur =>
    if size < cur.length then
      let pr := hardSplitGo size overlap fuel (cur.drop (size - overlap))
      (cur.take size :: pr.1, pr.2)
    else ([], cur)

/-- The hard-split loop applied with enough fuel: returns the emitted full
windows together with the final sub-`size` remainder. -/
def hardSplit (size overlap : Nat) (cur : List Char) : List (List Char) × List Char :=
  hardSplitGo size overlap cur.length cur

/-- The paragraph loop of `_split_paragraph_chunks` (lines 38-63): greedy
accumulation into `buf`, hard split when the incoming paragraph does not fit,
final flush of the trailing buffer.  Note the Python code emits the hard-split
remainder (`if cur: yield cur`) and then restarts the buffer at the incoming
paragraph (`buf = p`). -/
def chunkLoop (size overlap : Nat) : List Char → List (List Char) → List (List Char)
  | buf, [] =>
    if buf.isEmpty then []
    else
      let pr := hardSplit size overlap buf
      pr.1 ++ (if pr.2.isEmpty then [] else [pr.2])
  | buf, p :: ps =>
    if buf.isEmpty then chunkLoop size overlap p ps
    else if buf.length + 1 + p.length ≤ size then
      chunkLoop size overlap (buf ++ '\n' :: p) ps
    else
      let pr := hardSplit size overlap buf
      (pr.1 ++ (if pr.2.isEmpty then [] else [pr.2])) ++ chunkLoop size overlap p ps

/-- `_split_paragraph_chunks(text, size, overlap)`, as the list of the yielded
chunks. -/
def splitParagraphChunks (text : List Char) (size overlap : Nat) : List (List Char) :=
  chunkLoop size overlap [] (paragraphsOf text)

/-- Modelled from the spec: the chunker variant described by the words of
spec §4.1, "emitting every full window and carrying the final remainder
forward as the new buffer" — after a hard split the remainder becomes the
buffer and the incoming paragraph is accumulated against it greedily.  Used
only to compare the source chunker with the spec's description. -/
def chunkLoopCarry (size overlap : Nat) : List Char → List (List Char) → List (List Char)
  | buf, [] =>
    if buf.isEmpty then []
    else
      let pr := hardSplit size overlap buf
      pr.1 ++ (if pr.2.isEmpty then [] else [pr.2])
  | buf, p :: ps =>
    if buf.isEmpty then chunkLoopCarry size overlap p ps
    else if buf.length + 1 + p.length ≤ size then
      chunkLoopCarry size overlap (buf ++ '\n' :: p) ps
    else
      let pr := hardSplit size overlap buf
      pr.1 ++
        (if pr.2.isEmpty then chunkLoopCarry size overlap p ps
         else if pr.2.length + 1 + p.length ≤ size then
           chunkLoopCarry size overlap (pr.2 ++ '\n' :: p) ps
         else pr.2 :: chunkLoopCarry size overlap p ps)

/-- Modelled from the spec: `split` of spec §4.1 with the remainder carried
forward (comparison definition for the source chunker). -/
def splitParagraphChunksCarry (text : List Char) (size overlap : Nat) : List (List Char) :=
  chunkLoopCarry size overlap [] (paragraphsOf text)

/-- Embedding vectors; integer components stand in for the floats of the
model (no claim depends on float rounding). -/
abbrev Vec := List Int

/-- One metadata record, `{"source": fname, "chunk_id": i, "text": chunk}`
(line 146 of rag_system.py). -/
structure MetaRecord where
  source : String
  chunk_id : Nat
  text : String
deriving DecidableEq

/-- One retrieval result dict (lines 197-206 of rag_system.py).  The metadata
records carry no `full_text` key, so `m.get("full_text", m["text"])` is the
chunk text. -/
structure RResult where
  text : String
  source : String
  score : Int
  chunk_id : Nat
  full_text : String
  chunk_index : Int
deriving DecidableEq

/-- The two persisted artifacts (`law_faiss.index`, `law_meta.pkl`); `none`
means the file does not exist.  Persistence is bit-for-bit, so a file is
modelled by the value written to it. -/
structure FS where
  indexFile : Option (List Vec)
  metaFile : Option (List MetaRecord)
deriving DecidableEq

/-- The mutable state of a `RAGSystem` instance plus its index directory:
`self.index` (as the list of row vectors), `self.metadata`, the two files,
and a counter of `load_index` calls (used to state that `retrieve` attempts
a load exactly once). -/
structure RAGState where
  index : Option (List Vec)
  metadata : List MetaRecord
  fs : FS
  loadCalls : Nat
deriving DecidableEq

/-- Failure oracle: which of the raising statements inside the `try:` blocks
raise.  `encodeFails` covers both a model-load failure in `_get_model()` and
an encoding failure during `build_index`; `qEncodeFails` is the query-time
counterpart inside `retrieve_law_chunks`. -/
structure Oracle where
  loadCorpusFails : Bool
  encodeFails : Bool
  writeIndexFails : Bool
  writeMetaFails : Bool
  readIndexFails : Bool
  readMetaFails : Bool
  qEncodeFails : Bool
deriving DecidableEq

/-- The all-succeed oracle (nominal execution). -/
def noFail : Oracle := ⟨false, false, false, false, false, false, false⟩

/-- `bump s` is `s` with one more recorded `load_index` call. -/
def bump (s : RAGState) : RAGState :=
  { s with loadCalls := s.loadCalls + 1 }

/-- The chunk/metadata double loop of `build_index` (lines 142-146): for each
file, enumerate its chunks and build one record per chunk, in file order. -/
def corpusChunks (corpus : List (String × String)) : List MetaRecord :=
  corpus.flatMap (fun fc =>
    ((splitParagraphChunks fc.2.data CHUNK_SIZE CHUNK_OVERLAP).enum).map
      (fun ic => ⟨fc.1, ic.1, ⟨ic.2⟩⟩))

/-- The row vectors the build adds to the fresh `IndexFlatIP`. -/
def builtRows (corpus : List (String × String)) (embed : String → Vec) : List Vec :=
  (corpusChunks corpus).map (fun m => embed m.text)

/-- Body of the `try:` block of `build_index` (lines 134-164), with every
raising statement driven by the oracle.  An `.error` result carries the state
at the moment of the raise — in particular a raise at the metadata write
(line 159-160) happens after the index file has already been replaced. -/
def buildBody (f : Oracle) (corpus : List (String × String)) (embed : String → Vec)
    (s : RAGState) : Except RAGState (Bool × RAGState) :=
  if f.loadCorpusFails then .error s
  else if corpus.isEmpty then .ok (false, s)
  else
    let meta := corpusChunks corpus
    if (meta.map (fun m => m.text)).isEmpty then .ok (false, s)
    else if f.encodeFails then .error s
    else
      let rows := meta.map (fun m => embed m.text)
      if f.writeIndexFails then .error s
      else
        let s1 : RAGState := { s with fs := ⟨some rows, s.fs.metaFile⟩ }
        if f.writeMetaFails then .error s1
        else
          let s2 : RAGState := { s1 with fs := ⟨some rows, some meta⟩ }
          .ok (true, { s2 with index := some rows, metadata := meta })

/-- `RAGSystem.build_index`: the `try:` body with the `except` handler that
turns any raise into the return value `False` (lines 165-167). -/
def buildIndex (f : Oracle) (corpus : List (String × String)) (embed : String → Vec)
    (s : RAGState) : Bool × RAGState :=
  match buildBody f corpus embed s with
  | .ok r => r
  | .error sE => (false, sE)

/-- Body of the `try:` block of `load_index` (lines 171-177): missing file
check, then the index read (which assigns `self.index`), then the metadata
read. -/
def loadBody (f : Oracle) (s : RAGState) : Except RAGState (Bool × RAGState) :=
  match s.fs.indexFile, s.fs.metaFile with
  | some rows, some m =>
    if f.readIndexFails then .error s
    else
      let s1 : RAGState := { s with index := some rows }
      if f.readMetaFails then .error s1
      else .ok (true, { s1 with metadata := m })
  | _, _ => .ok (false, s)

/-- `RAGSystem.load_index`, counting the call and catching every raise into
the return value `False` (lines 178-180). -/
def loadIndex (f : Oracle) (s : RAGState) : Bool × RAGState :=
  match loadBody f (bump s) with
  | .ok r => r
  | .error sE => (false, sE)

/-- Inner product of two row vectors (faiss `IndexFlatIP` scoring). -/
def ip (a b : Vec) : Int :=
  ((a.zip b).map (fun xy => xy.1 * xy.2)).sum

/-- Select a maximal-score entry (first among equals), returning it and the
remaining entries. -/
def pickMax : List (Int × Nat) → Option ((Int × Nat) × List (Int × Nat))
  | [] => none
  | x :: xs =>
    match pickMax xs with
    | none => some (x, [])
    | some (m, rest) => if m.1 > x.1 then some (m, x :: rest) else some (x, xs)

/-- Top-k selection with `-1` id padding when fewer rows exist than `k`
(the documented faiss `search` contract). -/
def topKGo : Nat → List (Int × Nat) → List (Int × Int)
  | 0, _ => []
  | k + 1, scored =>
    match pickMax scored with
    | none => (0, -1) :: topKGo k []
    | some (m, rest) => (m.1, (m.2 : Int)) :: topKGo k rest

/-- `self.index.search(q, top_k)` on a flat inner-product index: score every
row, return `k` (score, id) pairs by descending score, padded with id `-1`. -/
def searchIP (rows : List Vec) (q : Vec) (k : Nat) : List (Int × Int) :=
  topKGo k ((rows.map (fun v => ip v q)).enum.map (fun iv => (iv.2, iv.1)))

/-- Result dict built at lines 197-206 of rag_system.py. -/
def mkResult (m : MetaRecord) (score : Int) (idx : Int) : RResult :=
  ⟨m.text, m.source, score, m.chunk_id, m.text, idx⟩

/-- Body of the `try:` block of `retrieve_law_chunks` (lines 188-207): encode
the query, search, keep the hits whose id is in range of `self.metadata`.
The `none` index case is the `AttributeError` a raw `None.search` would
raise. -/
def retrieveBody (f : Oracle) (embed : String → Vec) (s : RAGState) (q : String)
    (k : Nat) : Except RAGState (List RResult × RAGState) :=
  if f.qEncodeFails then .error s
  else
    match s.index with
    | none => .error s
    | some rows =>
      let sr := searchIP rows (embed q) k
      let results := sr.filterMap (fun si =>
        if (0 : Int) ≤ si.2 then
          match s.metadata.get? si.2.toNat with
          | some m => some (mkResult m si.1 si.2)
          | none => none
        else none)
      .ok (results, s)

/-- Lines 184-186 of `retrieve_law_chunks`: if no index object is held,
attempt one `load_index()`; the boolean says whether retrieval proceeds. -/
def retrievePre (f : Oracle) (s : RAGState) : Bool × RAGState :=
  match s.index with
  | some _ => (true, s)
  | none => loadIndex f s

/-- `RAGSystem.retrieve_law_chunks`: the load attempt, then the `try:` body
with the `except` handler that turns any raise into `[]` (lines 208-210). -/
def retrieveLawChunks (f : Oracle) (embed : String → Vec) (s : RAGState) (q : String)
    (k : Nat) : List RResult × RAGState :=
  let pre := retrievePre f s
  if pre.1 then
    match retrieveBody f embed pre.2 q k with
    | .ok r => r
    | .error sE => ([], sE)
  else ([], pre.2)

/-- Shape of the hard-split loop: window `i` is the `size`-character window of
`cur` starting at `i * (size - overlap)`, every window starts in a suffix still
longer than `size`, and the remainder is the suffix left after the last window,
of length at most `size`. -/
theorem hardSplitGo_spec (size overlap : Nat) (hov : overlap < size) :
    ∀ (fuel : Nat) (cur : List Char), cur.length ≤ fuel →
      (∀ i, i < (hardSplitGo size overlap fuel cur).1.length →
        (hardSplitGo size overlap fuel cur).1.get? i
            = some ((cur.drop (i * (size - overlap))).take size)
          ∧ size < (cur.drop (i * (size - overlap))).length) ∧
      (hardSplitGo size overlap fuel cur).2
          = cur.drop ((hardSplitGo size overlap fuel cur).1.length * (size - overlap)) ∧
      (hardSplitGo size overlap fuel cur).2.length ≤ size := by
  intro fuel
  induction fuel with
  | zero =>
    intro cur hle
    have hc : cur = [] := List.eq_nil_of_length_eq_zero (Nat.le_zero.mp hle)
    subst hc
    simp [hardSplitGo]
  | succ n ih =>
    intro cur hle
    by_cases h : size < cur.length
    · have hstep : 0 < size - overlap := Nat.sub_pos_of_lt hov
      have hle2 : (cur.drop (size - overlap)).length ≤ n := by
        rw [List.length_drop]; omega
      obtain ⟨ihw, ihr, ihlen⟩ := ih (cur.drop (size - overlap)) hle2
      simp only [hardSplitGo, if_pos h]
      refine ⟨?_, ?_, ihlen⟩
      · intro i hi
        cases i with
        | zero =>
          simpa using h
        | succ j =>
          have hj : j < (hardSplitGo size overlap n (cur.drop (size - overlap))).1.length := by
            simpa using hi
          obtain ⟨hw1, hw2⟩ := ihw j hj
          rw [List.drop_drop] at hw1 hw2
          have harith : size - overlap + j * (size - overlap) = (j + 1) * (size - overlap) := by
            rw [Nat.succ_mul]; omega
          rw [harith] at hw1 hw2
          exact ⟨by simpa using hw1, hw2⟩
      · rw [ihr, List.drop_drop, List.length_cons, Nat.succ_mul, Nat.add_comm]
    · simp [hardSplitGo, if_neg h]
      omega

/-- The hard-split window/remainder shape, with the fuel instantiated. -/
theorem hardSplit_spec (size overlap : Nat) (hov : overlap < size) (cur : List Char) :
    (∀ i, i < (hardSplit size overlap cur).1.length →
      (hardSplit size overlap cur).1.get? i
          = some ((cur.drop (i * (size - overlap))).take size)
        ∧ size < (cur.drop (i * (size - overlap))).length) ∧
    (hardSplit size overlap cur).2
        = cur.drop ((hardSplit size overlap cur).1.length * (size - overlap)) ∧
    (hardSplit size overlap cur).2.length ≤ size :=
  hardSplitGo_spec size overlap hov cur.length cur (Nat.le_refl _)

/-- A non-empty buffer always leaves a non-empty hard-split remainder (so the
`if cur:` guard at line 53 always fires when the buffer was non-empty). -/
theorem hardSplit_rem_ne_nil (size overlap : Nat) (hov : overlap < size)
    (cur : List Char) (hc : cur ≠ []) : (hardSplit size overlap cur).2 ≠ [] := by
  obtain ⟨hw, hr, _⟩ := hardSplit_spec size overlap hov cur
  cases hn : (hardSplit size overlap cur).1.length with
  | zero =>
    rw [hn, Nat.zero_mul, List.drop_zero] at hr
    rw [hr]; exact hc
  | succ m =>
    have hwm := (hw m (by omega)).2
    rw [List.length_drop] at hwm
    apply List.ne_nil_of_length_pos
    rw [hr, hn, List.length_drop]
    have harith : (m + 1) * (size - overlap) = m * (size - overlap) + (size - overlap) := by
      rw [Nat.succ_mul]
    omega

/-- Every window emitted by the hard-split loop has length exactly `size`. -/
theorem hardSplit_mem_windows (size overlap : Nat) (hov : overlap < size)
    (cur c : List Char) (hc : c ∈ (hardSplit size overlap cur).1) :
    c.length = size := by
  obtain ⟨i, hi⟩ := List.get?_of_mem hc
  have hlt : i < (hardSplit size overlap cur).1.length := by
    obtain ⟨h1, -⟩ := List.get?_eq_some.mp hi
    exact h1
  obtain ⟨hw1, hw2⟩ := (hardSplit_spec size overlap hov cur).1 i hlt
  rw [hi] at hw1
  have hcw : c = (cur.drop (i * (size - overlap))).take size := by
    exact Option.some.inj hw1
  rw [hcw, List.length_take]
  omega

/-- Both pieces emitted when the code hard-splits a buffer (the windows and,
when non-empty, the remainder) are non-empty and of length at most `size`. -/
theorem emit_bounded (size overlap : Nat) (hov : overlap < size) (cur c : List Char)
    (hc : c ∈ (hardSplit size overlap cur).1
            ++ (if (hardSplit size overlap cur).2.isEmpty then []
                else [(hardSplit size overlap cur).2])) :
    c ≠ [] ∧ c.length ≤ size := by
  obtain ⟨-, -, hrlen⟩ := hardSplit_spec size overlap hov cur
  rcases List.mem_append.mp hc with hm | hm
  · have hlen := hardSplit_mem_windows size overlap hov cur c hm
    refine ⟨List.ne_nil_of_length_pos ?_, by omega⟩
    omega
  · by_cases he : (hardSplit size overlap cur).2.isEmpty
    · rw [if_pos he] at hm
      exact absurd hm (List.not_mem_nil c)
    · rw [if_neg he] at hm
      have hce : c = (hardSplit size overlap cur).2 := List.mem_singleton.mp hm
      subst hce
      exact ⟨fun h => he (List.isEmpty_iff.mpr h), hrlen⟩

/-- Every chunk produced by the paragraph loop, from any buffer, is non-empty
and of length at most `size`. -/
theorem chunkLoop_bounded (size overlap : Nat) (hov : overlap < size) :
    ∀ (ps : List (List Char)) (buf c : List Char),
      c ∈ chunkLoop size overlap buf ps → c ≠ [] ∧ c.length ≤ size := by
  intro ps
  induction ps with
  | nil =>
    intro buf c hc
    by_cases hb : buf.isEmpty
    · rw [chunkLoop, if_pos hb] at hc
      exact absurd hc (List.not_mem_nil c)
    · rw [chunkLoop, if_neg hb] at hc
      exact emit_bounded size overlap hov buf c hc
  | cons p ps ih =>
    intro buf c hc
    rw [chunkLoop] at hc
    by_cases hb : buf.isEmpty
    · rw [if_pos hb] at hc
      exact ih p c hc
    · rw [if_neg hb] at hc
      by_cases hfit : buf.length + 1 + p.length ≤ size
      · rw [if_pos hfit] at hc
        exact ih (buf ++ '\n' :: p) c hc
      · rw [if_neg hfit] at hc
        rcases List.mem_append.mp hc with hm | hm
        · exact emit_bounded size overlap hov buf c hm
        · exact ih p c hm

/-- C9: for every input text and every `size`, `overlap` with
`0 ≤ overlap < size`, every chunk yielded by `_split_paragraph_chunks` is
non-empty and has length at most `size`; the embedding is a total function,
so the generator also terminates on every such input. -/
theorem split_chunks_bounded (text : List Char) (size overlap : Nat)
    (hov : overlap < size) :
    ∀ c ∈ splitParagraphChunks text size overlap, c ≠ [] ∧ c.length ≤ size :=
  fun c hc => chunkLoop_bounded size overlap hov (paragraphsOf text) [] c hc

/-- Witness for C9 at `size = 3`, `overlap = 1` on a two-paragraph text. -/
theorem split_chunks_bounded_witness :
    1 < 3 ∧
    ∀ c ∈ splitParagraphChunks ("ab\n\ncdefg".data) 3 1, c ≠ [] ∧ c.length ≤ 3 :=
  ⟨by omega, split_chunks_bounded ("ab\n\ncdefg".data) 3 1 (by omega)⟩

/-- Flushing a non-empty buffer at end of input yields the hard-split windows
followed by the (always non-empty) remainder. -/
theorem chunkLoop_flush (size overlap : Nat) (hov : overlap < size) (buf : List Char)
    (hb : buf ≠ []) :
    chunkLoop size overlap buf []
      = (hardSplit size overlap buf).1 ++ [(hardSplit size overlap buf).2] := by
  have hr := hardSplit_rem_ne_nil size overlap hov buf hb
  have hbE : buf.isEmpty = false := by simpa [List.isEmpty_iff] using hb
  have hrE : (hardSplit size overlap buf).2.isEmpty = false := by
    simpa [List.isEmpty_iff] using hr
  rw [chunkLoop]
  simp [hbE, hrE]

/-- Chunk `i` of a flushed buffer is the `size`-window at `i * (size-overlap)`
(the last one truncated), and every chunk before the last starts in a suffix
longer than `size`. -/
theorem flush_get (size overlap : Nat) (hov : overlap < size) (buf : List Char)
    (hb : buf ≠ []) :
    ∀ i, i < (chunkLoop size overlap buf []).length →
      (chunkLoop size overlap buf []).get? i
          = some ((buf.drop (i * (size - overlap))).take size)
        ∧ (i + 1 < (chunkLoop size overlap buf []).length →
            size < (buf.drop (i * (size - overlap))).length) := by
  obtain ⟨hw, hr, hrlen⟩ := hardSplit_spec size overlap hov buf
  have hfl := chunkLoop_flush size overlap hov buf hb
  intro i hi
  rw [hfl] at hi ⊢
  rw [List.length_append, List.length_singleton] at hi
  by_cases hlt : i < (hardSplit size overlap buf).1.length
  · obtain ⟨h1, h2⟩ := hw i hlt
    rw [List.get?_append hlt]
    exact ⟨h1, fun _ => h2⟩
  · have hieq : i = (hardSplit size overlap buf).1.length := by omega
    subst hieq
    constructor
    · rw [List.get?_append_right (Nat.le_refl _), Nat.sub_self]
      have htk : (buf.drop ((hardSplit size overlap buf).1.length * (size - overlap))).take size
          = buf.drop ((hardSplit size overlap buf).1.length * (size - overlap)) := by
        apply List.take_of_length_le
        rw [← hr]; exact hrlen
      rw [htk, ← hr]
      rfl
    · intro hcontra
      rw [List.length_append, List.length_singleton] at hcontra
      omega

/-- C3: for a text whose paragraph split yields a single paragraph of length
exactly `3 * size`, with `0 ≤ overlap < size`, every produced chunk has length
at most `size`, and each consecutive pair of chunks overlaps in exactly
`overlap` characters — the later chunk begins with the last `overlap`
characters of the earlier one, every non-final chunk having length exactly
`size`. -/
theorem single_paragraph_sliding_window (text p : List Char) (size overlap : Nat)
    (hov : overlap < size) (hp : paragraphsOf text = [p])
    (hlen : p.length = 3 * size) :
    (∀ c ∈ splitParagraphChunks text size overlap, c.length ≤ size) ∧
    (∀ j cj cj1,
      (splitParagraphChunks text size overlap).get? j = some cj →
      (splitParagraphChunks text size overlap).get? (j + 1) = some cj1 →
      cj.length = size ∧ cj1.take overlap = cj.drop (size - overlap)) := by
  have hpne : p ≠ [] := by
    apply List.ne_nil_of_length_pos; omega
  have hsp : splitParagraphChunks text size overlap = chunkLoop size overlap p [] := by
    rw [splitParagraphChunks, hp]
    rfl
  constructor
  · intro c hc
    exact (chunkLoop_bounded size overlap hov (paragraphsOf text) [] c hc).2
  · intro j cj cj1 hj hj1
    rw [hsp] at hj hj1
    obtain ⟨hjlt, -⟩ := List.get?_eq_some.mp hj
    obtain ⟨hj1lt, -⟩ := List.get?_eq_some.mp hj1
    obtain ⟨hg1, hcond1⟩ := flush_get size overlap hov p hpne j hjlt
    obtain ⟨hg2, -⟩ := flush_get size overlap hov p hpne (j + 1) hj1lt
    rw [hj] at hg1
    rw [hj1] at hg2
    have hcj : cj = (p.drop (j * (size - overlap))).take size :=
      Option.some.inj hg1
    have hcj1 : cj1 = (p.drop ((j + 1) * (size - overlap))).take size :=
      Option.some.inj hg2
    have hlong : size < (p.drop (j * (size - overlap))).length := hcond1 hj1lt
    constructor
    · rw [hcj, List.length_take]; omega
    · rw [hcj, hcj1, List.take_take, Nat.min_eq_left (Nat.le_of_lt hov),
        List.drop_take, List.drop_drop]
      have h1 : size - (size - overlap) = overlap :=
        Nat.sub_sub_self (Nat.le_of_lt hov)
      have h2 : j * (size - overlap) + (size - overlap) = (j + 1) * (size - overlap) := by
        rw [Nat.succ_mul]
      rw [h1, h2]

/-- Witness for C3: the six-character single paragraph, `size = 2`,
`overlap = 1`. -/
theorem single_paragraph_sliding_window_witness :
    paragraphsOf ("aaaaaa".data) = ["aaaaaa".data] ∧
    ("aaaaaa".data).length = 3 * 2 ∧
    ((∀ c ∈ splitParagraphChunks ("aaaaaa".data) 2 1, c.length ≤ 2) ∧
     (∀ j cj cj1,
       (splitParagraphChunks ("aaaaaa".data) 2 1).get? j = some cj →
       (splitParagraphChunks ("aaaaaa".data) 2 1).get? (j + 1) = some cj1 →
       cj.length = 2 ∧ cj1.take 1 = cj.drop (2 - 1))) :=
  ⟨by decide, by decide,
   single_paragraph_sliding_window ("aaaaaa".data) ("aaaaaa".data) 2 1
     (by omega) (by decide) (by decide)⟩

/-- Counterexample for C4: on the text `"aaaaaaa\n\nb"` with `size = 5`,
`overlap = 1`, the source chunker emits the hard-split remainder `"aaa"` as
its own chunk and restarts the buffer at `"b"`, whereas the spec-described
carry-forward variant accumulates the remainder with the following paragraph
into `"aaa\nb"`; the two disagree. -/
theorem chunk_remainder_carry_cex :
    splitParagraphChunks ("aaaaaaa\n\nb".data) 5 1
        = ["aaaaa".data, "aaa".data, "b".data] ∧
    splitParagraphChunksCarry ("aaaaaaa\n\nb".data) 5 1
        = ["aaaaa".data, "aaa\nb".data] ∧
    ¬ splitParagraphChunks ("aaaaaaa\n\nb".data) 5 1
        = splitParagraphChunksCarry ("aaaaaaa\n\nb".data) 5 1 := by
  decide

/-- C4 (amended): whenever the accumulated buffer cannot absorb the incoming
paragraph, the code hard-splits the buffer into fixed windows advancing by
`size - overlap`, emits every full window, and emits the final sub-`size`
remainder as its own chunk at that point as well — the new buffer is the
incoming paragraph, not the remainder. -/
theorem hard_split_emits_remainder (size overlap : Nat) (buf p : List Char)
    (ps : List (List Char)) (hov : overlap < size) (hbuf : buf ≠ [])
    (hfit : size < buf.length + 1 + p.length) :
    (hardSplit size overlap buf).2 ≠ [] ∧
    chunkLoop size overlap buf (p :: ps)
      = ((hardSplit size overlap buf).1 ++ [(hardSplit size overlap buf).2])
          ++ chunkLoop size overlap p ps := by
  have hr := hardSplit_rem_ne_nil size overlap hov buf hbuf
  refine ⟨hr, ?_⟩
  have hbE : buf.isEmpty = false := by simpa [List.isEmpty_iff] using hbuf
  have hrE : (hardSplit size overlap buf).2.isEmpty = false := by
    simpa [List.isEmpty_iff] using hr
  have hfitE : ¬ (buf.length + 1 + p.length ≤ size) := by omega
  rw [chunkLoop]
  simp [hbE, hrE, hfitE]

/-- Witness for the amended C4 at the counterexample's input. -/
theorem hard_split_emits_remainder_witness :
    (hardSplit 5 1 ("aaaaaaa".data)).2 ≠ [] ∧
    chunkLoop 5 1 ("aaaaaaa".data) ["b".data]
      = ((hardSplit 5 1 ("aaaaaaa".data)).1 ++ [(hardSplit 5 1 ("aaaaaaa".data)).2])
          ++ chunkLoop 5 1 ("b".data) [] :=
  hard_split_emits_remainder 5 1 ("aaaaaaa".data) ("b".data) [] (by omega)
    (by decide) (by decide)

/-- A `build_index` call that returns `True` ran the whole `try:` body. -/
theorem buildIndex_true_body (f : Oracle) (corpus : List (String × String))
    (embed : String → Vec) (s sB : RAGState)
    (h : buildIndex f corpus embed s = (true, sB)) :
    buildBody f corpus embed s = .ok (true, sB) := by
  unfold buildIndex at h
  cases hb : buildBody f corpus embed s with
  | ok r => rw [hb] at h; exact congrArg Except.ok h
  | error sE => rw [hb] at h; simp at h

/-- On success, `build_index` installs exactly the freshly built rows and
metadata, in memory and in both files, and leaves the load counter alone. -/
theorem build_success_shape (f : Oracle) (corpus : List (String × String))
    (embed : String → Vec) (s sB : RAGState)
    (h : buildIndex f corpus embed s = (true, sB)) :
    sB = ⟨some (builtRows corpus embed), corpusChunks corpus,
          ⟨some (builtRows corpus embed), some (corpusChunks corpus)⟩,
          s.loadCalls⟩ := by
  have hb := buildIndex_true_body f corpus embed s sB h
  unfold buildBody at hb
  simp only [List.isEmpty_iff] at hb
  split_ifs at hb <;> simp_all [builtRows]

/-- C1: whenever `build_index()` returns `True`, the number of metadata
records equals the number of index rows, and the record at position `i` is
the one built for the chunk whose embedding is row `i`, in the shared
file-then-chunk iteration order (`corpusChunks`). -/
theorem build_index_alignment (f : Oracle) (corpus : List (String × String))
    (embed : String → Vec) (s sB : RAGState)
    (h : buildIndex f corpus embed s = (true, sB)) :
    sB.metadata = corpusChunks corpus ∧
    sB.index = some (builtRows corpus embed) ∧
    ∀ rows, sB.index = some rows →
      sB.metadata.length = rows.length ∧
      ∀ i, rows.get? i = (sB.metadata.get? i).map (fun m => embed m.text) := by
  have hs := build_success_shape f corpus embed s sB h
  subst hs
  refine ⟨rfl, rfl, ?_⟩
  intro rows hr
  have hrows : rows = builtRows corpus embed := by
    exact (Option.some.inj hr).symm
  subst hrows
  constructor
  · simp [builtRows]
  · intro i
    simp [builtRows, List.get?_map]

/-- Witness for C1: one file, one chunk, constant embedder. -/
theorem build_index_alignment_witness :
    buildIndex noFail [("a.txt", "hello")] (fun _ => [1]) ⟨none, [], ⟨none, none⟩, 0⟩
        = (true, ⟨some [[1]], [⟨"a.txt", 0, "hello"⟩],
                  ⟨some [[1]], some [⟨"a.txt", 0, "hello"⟩]⟩, 0⟩) ∧
    (let sB : RAGState := ⟨some [[1]], [⟨"a.txt", 0, "hello"⟩],
                           ⟨some [[1]], some [⟨"a.txt", 0, "hello"⟩]⟩, 0⟩
     sB.metadata = corpusChunks [("a.txt", "hello")] ∧
     sB.index = some (builtRows [("a.txt", "hello")] (fun _ => [1])) ∧
     ∀ rows, sB.index = some rows →
       sB.metadata.length = rows.length ∧
       ∀ i, rows.get? i = (sB.metadata.get? i).map (fun m => (fun _ => ([1] : Vec)) m.text)) :=
  ⟨by decide,
   build_index_alignment noFail [("a.txt", "hello")] (fun _ => [1])
     ⟨none, [], ⟨none, none⟩, 0⟩ _ (by decide)⟩

/-- C5: a corpus that is empty (missing or unreadable directory) or that
produces zero chunks makes `build_index()` return `False` with the entire
state — memory and both files — unchanged. -/
theorem build_index_empty_corpus (f : Oracle) (corpus : List (String × String))
    (embed : String → Vec) (s : RAGState)
    (h : corpus = [] ∨ corpusChunks corpus = []) :
    buildIndex f corpus embed s = (false, s) := by
  unfold buildIndex buildBody
  by_cases h1 : f.loadCorpusFails
  · simp [h1]
  · by_cases h2 : corpus.isEmpty
    · simp [h1, h2]
    · rcases h with h | h
      · subst h; simp at h2
      · simp [h1, h2, h]

/-- Witness for C5: the empty corpus on an empty state. -/
theorem build_index_empty_corpus_witness :
    (([] : List (String × String)) = [] ∨ corpusChunks [] = []) ∧
    buildIndex noFail [] (fun _ => [1]) ⟨none, [], ⟨none, none⟩, 0⟩
      = (false, ⟨none, [], ⟨none, none⟩, 0⟩) :=
  ⟨Or.inl rfl,
   build_index_empty_corpus noFail [] (fun _ => [1]) ⟨none, [], ⟨none, none⟩, 0⟩
     (Or.inl rfl)⟩

/-- Counterexample for C2: with the service Ready (old one-record index and
metadata persisted and in memory), a build over a two-file corpus whose
metadata write raises leaves the persisted pair partially replaced — the
index file now holds the two freshly built rows while the metadata file still
holds the single old record — even though `build_index` returned `False` and
memory is untouched. -/
theorem build_partial_write_cex :
    buildIndex ⟨false, false, false, true, false, false, false⟩
        [("n1.txt", "x"), ("n2.txt", "y")] (fun _ => [1])
        ⟨some [[5]], [⟨"old.txt", 0, "old"⟩],
         ⟨some [[5]], some [⟨"old.txt", 0, "old"⟩]⟩, 0⟩
      = (false,
         ⟨some [[5]], [⟨"old.txt", 0, "old"⟩],
          ⟨some [[1], [1]], some [⟨"old.txt", 0, "old"⟩]⟩, 0⟩) ∧
    (some [[1], [1]] : Option (List Vec)) ≠ some [[5]] ∧
    (some ([[1], [1]] : List Vec)).map List.length = some 2 ∧
    (some [(⟨"old.txt", 0, "old"⟩ : MetaRecord)]).map List.length = some 1 := by
  decide

/-- C2 (amended): when `build_index()` returns `False`, the in-memory pair
and the persisted metadata file are untouched; the persisted index file is
also untouched unless the failure occurred at the metadata write, in which
case the index file alone has already been replaced by the freshly built
rows — so a mismatched persisted pair is possible exactly there. -/
theorem build_index_failure_isolation (f : Oracle) (corpus : List (String × String))
    (embed : String → Vec) (s sE : RAGState)
    (h : buildIndex f corpus embed s = (false, sE)) :
    sE.index = s.index ∧ sE.metadata = s.metadata ∧ sE.loadCalls = s.loadCalls ∧
    sE.fs.metaFile = s.fs.metaFile ∧
    (sE.fs.indexFile = s.fs.indexFile ∨
      (f.writeMetaFails = true ∧ sE.fs.indexFile = some (builtRows corpus embed))) := by
  unfold buildIndex buildBody at h
  simp only [List.isEmpty_iff] at h
  split_ifs at h <;> simp_all [builtRows] <;> (subst h; simp)

/-- Witness for the amended C2: an encoding failure on a Ready service leaves
everything unchanged. -/
theorem build_index_failure_isolation_witness :
    buildIndex ⟨false, true, false, false, false, false, false⟩ [("a.txt", "hi")]
        (fun _ => [1])
        ⟨some [[5]], [⟨"old.txt", 0, "old"⟩],
         ⟨some [[5]], some [⟨"old.txt", 0, "old"⟩]⟩, 0⟩
      = (false,
         ⟨some [[5]], [⟨"old.txt", 0, "old"⟩],
          ⟨some [[5]], some [⟨"old.txt", 0, "old"⟩]⟩, 0⟩) ∧
    (let s : RAGState := ⟨some [[5]], [⟨"old.txt", 0, "old"⟩],
                          ⟨some [[5]], some [⟨"old.txt", 0, "old"⟩]⟩, 0⟩
     s.index = s.index ∧ s.metadata = s.metadata ∧ s.loadCalls = s.loadCalls ∧
     s.fs.metaFile = s.fs.metaFile ∧
     (s.fs.indexFile = s.fs.indexFile ∨
       ((⟨false, true, false, false, false, false, false⟩ : Oracle).writeMetaFails = true ∧
        s.fs.indexFile = some (builtRows [("a.txt", "hi")] (fun _ => [1]))))) :=
  ⟨by decide,
   build_index_failure_isolation ⟨false, true, false, false, false, false, false⟩
     [("a.txt", "hi")] (fun _ => [1])
     ⟨some [[5]], [⟨"old.txt", 0, "old"⟩],
      ⟨some [[5]], some [⟨"old.txt", 0, "old"⟩]⟩, 0⟩ _ (by decide)⟩

/-- C6: after a successful build, a fresh service instance over the same
persisted files loads successfully and `retrieve` returns exactly the same
result list (hence the same source, chunk id and score sequence; exact
equality subsumes the 1e-5 tolerance) as the original instance. -/
theorem round_trip_retrieval (f : Oracle) (corpus : List (String × String))
    (embed : String → Vec) (s s1 : RAGState) (q : String) (k : Nat)
    (h : buildIndex f corpus embed s = (true, s1)) :
    ∃ s3, loadIndex noFail ⟨none, [], s1.fs, 0⟩ = (true, s3) ∧
      (retrieveLawChunks noFail embed s3 q k).1
        = (retrieveLawChunks noFail embed s1 q k).1 := by
  have hs := build_success_shape f corpus embed s s1 h
  subst hs
  exact ⟨⟨some (builtRows corpus embed), corpusChunks corpus,
          ⟨some (builtRows corpus embed), some (corpusChunks corpus)⟩, 1⟩, rfl, rfl⟩

/-- Witness for C6 over a one-file corpus. -/
theorem round_trip_retrieval_witness :
    buildIndex noFail [("a.txt", "hello")] (fun _ => [1]) ⟨none, [], ⟨none, none⟩, 0⟩
        = (true, ⟨some [[1]], [⟨"a.txt", 0, "hello"⟩],
                  ⟨some [[1]], some [⟨"a.txt", 0, "hello"⟩]⟩, 0⟩) ∧
    ∃ s3, loadIndex noFail
        ⟨none, [],
         (⟨some [[1]], [⟨"a.txt", 0, "hello"⟩],
           ⟨some [[1]], some [⟨"a.txt", 0, "hello"⟩]⟩, 0⟩ : RAGState).fs, 0⟩
        = (true, s3) ∧
      (retrieveLawChunks noFail (fun _ => [1]) s3 "q" 2).1
        = (retrieveLawChunks noFail (fun _ => [1])
            ⟨some [[1]], [⟨"a.txt", 0, "hello"⟩],
             ⟨some [[1]], some [⟨"a.txt", 0, "hello"⟩]⟩, 0⟩ "q" 2).1 :=
  ⟨by decide,
   round_trip_retrieval noFail [("a.txt", "hello")] (fun _ => [1])
     ⟨none, [], ⟨none, none⟩, 0⟩ _ "q" 2 (by decide)⟩

/-- Every `load_index` call, whatever its outcome, records exactly one load
attempt. -/
theorem loadIndex_loadCalls (f : Oracle) (s : RAGState) :
    (loadIndex f s).2.loadCalls = s.loadCalls + 1 := by
  unfold loadIndex loadBody
  cases hI : s.fs.indexFile <;> cases hM : s.fs.metaFile <;>
    simp [bump, hI, hM] <;> split_ifs <;> simp [bump]

/-- The `try:` body of `retrieve_law_chunks` never changes the state: it
either raises with the entry state or returns results alongside it. -/
theorem retrieveBody_state (f : Oracle) (embed : String → Vec) (s : RAGState)
    (q : String) (k : Nat) :
    (match retrieveBody f embed s q k with
     | .ok r => r.2
     | .error sE => sE) = s := by
  unfold retrieveBody
  by_cases hq : f.qEncodeFails <;> cases hI : s.index <;> simp [hq, hI]

/-- C7: a `retrieve` call on a service holding no in-memory index attempts
`load_index()` exactly once (the load counter rises by exactly one), and if
either persisted file is absent the call returns the empty list — a normal
return, not an exception. -/
theorem retrieve_unready_single_load (f : Oracle) (embed : String → Vec)
    (s : RAGState) (q : String) (k : Nat) (hidx : s.index = none) :
    (retrieveLawChunks f embed s q k).2.loadCalls = s.loadCalls + 1 ∧
    ((s.fs.indexFile = none ∨ s.fs.metaFile = none) →
      retrieveLawChunks f embed s q k = ([], bump s)) := by
  have hpre : retrievePre f s = loadIndex f s := by
    unfold retrievePre; rw [hidx]
  have hlc := loadIndex_loadCalls f s
  constructor
  · unfold retrieveLawChunks
    rw [hpre]
    by_cases hok : (loadIndex f s).1 = true
    · simp only [hok, if_true]
      have hst := retrieveBody_state f embed (loadIndex f s).2 q k
      cases hbody : retrieveBody f embed (loadIndex f s).2 q k with
      | ok r =>
        rw [hbody] at hst
        have hst2 : r.2 = (loadIndex f s).2 := hst
        show r.2.loadCalls = s.loadCalls + 1
        rw [hst2]; exact hlc
      | error sE =>
        rw [hbody] at hst
        have hst2 : sE = (loadIndex f s).2 := hst
        show sE.loadCalls = s.loadCalls + 1
        rw [hst2]; exact hlc
    · simp only [Bool.not_eq_true] at hok
      simp only [hok, Bool.false_eq_true, if_false]
      exact hlc
  · intro hmiss
    have hload : loadIndex f s = (false, bump s) := by
      unfold loadIndex loadBody
      rcases hmiss with hm | hm
      · simp [bump, hm]
      · cases hI : s.fs.indexFile <;> simp [bump, hI, hm]
    unfold retrieveLawChunks
    rw [hpre, hload]
    simp

/-- Witness for C7: no in-memory index, no persisted files. -/
theorem retrieve_unready_single_load_witness :
    (retrieveLawChunks noFail (fun _ => [1]) ⟨none, [], ⟨none, none⟩, 7⟩ "q" 3).2.loadCalls
        = 7 + 1 ∧
    (((⟨none, [], ⟨none, none⟩, 7⟩ : RAGState).fs.indexFile = none ∨
      (⟨none, [], ⟨none, none⟩, 7⟩ : RAGState).fs.metaFile = none) →
      retrieveLawChunks noFail (fun _ => [1]) ⟨none, [], ⟨none, none⟩, 7⟩ "q" 3
        = ([], bump ⟨none, [], ⟨none, none⟩, 7⟩)) :=
  retrieve_unready_single_load noFail (fun _ => [1]) ⟨none, [], ⟨none, none⟩, 7⟩
    "q" 3 rfl

/-- Counterexample for C8: a query-time model failure on a Ready service
returns the plain empty list, the very same value a legitimate
no-index-available retrieval returns — the failure is not distinguishable
from a successful empty result. -/
theorem retrieve_model_failure_cex :
    (retrieveLawChunks ⟨false, false, false, false, false, false, true⟩ (fun _ => [1])
        ⟨some [[1]], [⟨"a.txt", 0, "hello"⟩],
         ⟨some [[1]], some [⟨"a.txt", 0, "hello"⟩]⟩, 0⟩ "q" 5).1 = [] ∧
    (retrieveLawChunks noFail (fun _ => [1]) ⟨none, [], ⟨none, none⟩, 0⟩ "q" 5).1
        = [] ∧
    (retrieveLawChunks ⟨false, false, false, false, false, false, true⟩ (fun _ => [1])
        ⟨some [[1]], [⟨"a.txt", 0, "hello"⟩],
         ⟨some [[1]], some [⟨"a.txt", 0, "hello"⟩]⟩, 0⟩ "q" 5).1
      = (retrieveLawChunks noFail (fun _ => [1]) ⟨none, [], ⟨none, none⟩, 0⟩ "q" 5).1 := by
  decide

/-- C8 (amended): a model failure makes `build_index` report `False` with the
whole state unchanged, and makes a Ready-service `retrieve` return the empty
list (indistinguishable from a successful empty result) with the Ready state
uncorrupted. -/
theorem model_failure_surfacing (f : Oracle) (corpus : List (String × String))
    (embed : String → Vec) (s : RAGState) (rows : List Vec) (q : String) (k : Nat)
    (hb : f.encodeFails = true) (hq : f.qEncodeFails = true)
    (hready : s.index = some rows) :
    buildIndex f corpus embed s = (false, s) ∧
    retrieveLawChunks f embed s q k = ([], s) := by
  constructor
  · unfold buildIndex buildBody
    simp only [List.isEmpty_iff]
    split_ifs <;> simp_all
  · unfold retrieveLawChunks retrievePre retrieveBody
    rw [hready]
    simp [hq]

/-- Witness for the amended C8 on a Ready one-chunk service. -/
theorem model_failure_surfacing_witness :
    buildIndex ⟨false, true, false, false, false, false, true⟩ [("c.txt", "zz")]
        (fun _ => [1])
        ⟨some [[1]], [⟨"a.txt", 0, "hello"⟩],
         ⟨some [[1]], some [⟨"a.txt", 0, "hello"⟩]⟩, 0⟩
      = (false,
         ⟨some [[1]], [⟨"a.txt", 0, "hello"⟩],
          ⟨some [[1]], some [⟨"a.txt", 0, "hello"⟩]⟩, 0⟩) ∧
    retrieveLawChunks ⟨false, true, false, false, false, false, true⟩ (fun _ => [1])
        ⟨some [[1]], [⟨"a.txt", 0, "hello"⟩],
         ⟨some [[1]], some [⟨"a.txt", 0, "hello"⟩]⟩, 0⟩ "q" 5
      = ([], ⟨some [[1]], [⟨"a.txt", 0, "hello"⟩],
              ⟨some [[1]], some [⟨"a.txt", 0, "hello"⟩]⟩, 0⟩) :=
  model_failure_surfacing ⟨false, true, false, false, false, false, true⟩
    [("c.txt", "zz")] (fun _ => [1])
    ⟨some [[1]], [⟨"a.txt", 0, "hello"⟩],
     ⟨some [[1]], some [⟨"a.txt", 0, "hello"⟩]⟩, 0⟩ [[1]] "q" 5 rfl rfl rfl

/-- C10: every raise inside the `try:` bodies of `build_index`, `load_index`
and `retrieve_law_chunks` is caught by the surrounding handler and converted
into the plain return value `False`, `False` or `[]` respectively — no
exception escapes to the caller, so a retrieve-time failure yields the same
empty list a legitimately empty retrieval yields. -/
theorem internal_errors_converted (f : Oracle) (corpus : List (String × String))
    (embed : String → Vec) (s1 s2 s3 sb sl sr : RAGState) (q : String) (k : Nat)
    (hb : buildBody f corpus embed s1 = .error sb)
    (hl : loadBody f (bump s2) = .error sl)
    (hp : (retrievePre f s3).1 = true)
    (hr : retrieveBody f embed (retrievePre f s3).2 q k = .error sr) :
    buildIndex f corpus embed s1 = (false, sb) ∧
    loadIndex f s2 = (false, sl) ∧
    retrieveLawChunks f embed s3 q k = ([], sr) := by
  refine ⟨?_, ?_, ?_⟩
  · simp [buildIndex, hb]
  · simp [loadIndex, hl]
  · simp [retrieveLawChunks, hp, hr]

/-- Witness for C10: one oracle that raises in all three bodies (encode
failure at build, metadata read failure at load, query encode failure at
retrieve), each converted to its catch value. -/
theorem internal_errors_converted_witness :
    buildIndex ⟨false, true, false, false, false, true, true⟩ [("a.txt", "hi")]
        (fun _ => [1]) ⟨none, [], ⟨none, none⟩, 0⟩
      = (false, ⟨none, [], ⟨none, none⟩, 0⟩) ∧
    loadIndex ⟨false, true, false, false, false, true, true⟩
        ⟨none, [], ⟨some [[2]], some [⟨"b.txt", 0, "t"⟩]⟩, 3⟩
      = (false, ⟨some [[2]], [], ⟨some [[2]], some [⟨"b.txt", 0, "t"⟩]⟩, 4⟩) ∧
    retrieveLawChunks ⟨false, true, false, false, false, true, true⟩ (fun _ => [1])
        ⟨some [[1]], [], ⟨none, none⟩, 0⟩ "q" 5
      = ([], ⟨some [[1]], [], ⟨none, none⟩, 0⟩) :=
  internal_errors_converted ⟨false, true, false, false, false, true, true⟩
    [("a.txt", "hi")] (fun _ => [1]) ⟨none, [], ⟨none, none⟩, 0⟩
    ⟨none, [], ⟨some [[2]], some [⟨"b.txt", 0, "t"⟩]⟩, 3⟩
    ⟨some [[1]], [], ⟨none, none⟩, 0⟩ ⟨none, [], ⟨none, none⟩, 0⟩
    ⟨some [[2]], [], ⟨some [[2]], some [⟨"b.txt", 0, "t"⟩]⟩, 4⟩
    ⟨some [[1]], [], ⟨none, none⟩, 0⟩ "q" 5 rfl rfl rfl rfl

end Lawmedol
